import Mathlib

/-!
Verification development for `generate_audio.py`, a batch text-to-speech
narration renderer.  The script iterates over a hardcoded table of
`(filename, text)` pairs; for each entry it collects the synthesizer's audio
chunks, concatenates and writes them to `OUTPUT_DIR / filename` as 16-bit mono
PCM WAV at 24 kHz when at least one chunk was produced, then stats the output
path, derives a duration from the file size, records the rounded milliseconds
in a dict, and accumulates the unrounded seconds in a running total.  After
the loop it serializes the dict to `durations.json`.

The embedding below models the filesystem as a partial map from paths
(relative to the fixed output directory) to file contents, the synthesizer as
a function from `(text, voice, speed)` to a fallible list of sample chunks,
and the run as explicit state passing with `Except`-style short-circuiting on
the two failure points the loop has: a synthesizer error and `Path.stat` on a
missing file.  Sample values are abstracted as integers; the on-disk size of a
written clip is `44 + 2 * numSamples` bytes (the canonical 44-byte WAV header
libsndfile emits for PCM_16 plus two bytes per 16-bit mono sample).
-/

/-- One chunk of synthesized audio samples (16-bit mono, values abstracted). -/
abbrev Chunk := List Int

/-- Result of `pipeline(text, voice=..., speed=...)`: either a synthesis
failure (uncaught exception in the script) or the finite list of chunks the
lazy stream yields. -/
abbrev Synth := String → String → ℚ → Except Unit (List Chunk)

/-- Contents of a file in the output directory: a WAV clip written by
`sf.write` (determined by its sample list), an opaque pre-existing file of
which only the size is observable, or the serialized `durations.json`. -/
inductive FileContent where
  | wav (samples : List Int) : FileContent
  | bytes (size : Nat) : FileContent
  | jsonDump (entries : List (String × Int)) : FileContent
deriving DecidableEq, Repr

/-- Size in bytes of the fixed WAV header `sf.write` emits for 16-bit PCM. -/
def wavHeaderSize : Nat := 44

/-- `json.dump(d, f, indent=2)` for a `str -> int` dict, insertion order. -/
def pyJsonDump (d : List (String × Int)) : String :=
  match d with
  | [] => "\x7b\x7d"
  | _ =>
    "\x7b\n" ++
      String.intercalate ",\n"
        (d.map (fun p => "  \"" ++ p.1 ++ "\": " ++ toString p.2)) ++
      "\n\x7d"

/-- `Path.stat().st_size` of each kind of file. -/
def FileContent.size : FileContent → Nat
  | .wav samples => wavHeaderSize + 2 * samples.length
  | .bytes n => n
  | .jsonDump d => (pyJsonDump d).length

/-- The output directory's state: path (relative to `OUTPUT_DIR`) to file. -/
def Fs := String → Option FileContent

/-- Writing (or overwriting, in place) one file. -/
def Fs.set (fs : Fs) (k : String) (v : FileContent) : Fs :=
  fun q => if q = k then some v else fs q

/-- The empty output directory (fresh run). -/
def Fs.empty : Fs := fun _ => none

/-- Python `round` on an exact rational: round half to even. -/
def pyRound (q : ℚ) : Int :=
  let f := Rat.floor q
  if q - f < 1 / 2 then f
  else if 1 / 2 < q - f then f + 1
  else if f % 2 = 0 then f else f + 1

/-- Python's `f"{x:.1f}"` for a nonnegative exact rational. -/
def formatFixed1 (q : ℚ) : String :=
  let t := pyRound (q * 10)
  toString (t / 10) ++ "." ++ toString (t % 10)

/-- `d[k] = v` on a Python dict modelled as its insertion-ordered entry list:
an existing key keeps its position, a new key is appended at the end. -/
def dictSet (d : List (String × Int)) (k : String) (v : Int) :
    List (String × Int) :=
  if d.any (fun p => p.1 = k) then
    d.map (fun p => if p.1 = k then (k, v) else p)
  else d ++ [(k, v)]

/-- `d.get(k)` on the dict model: value of the first entry with key `k`. -/
def dictGet (d : List (String × Int)) (k : String) : Option Int :=
  (d.find? (fun p => p.1 = k)).map (fun p => p.2)

/-- The two uncaught exceptions the per-entry loop can raise: an error from
the synthesizer pipeline, and `Path.stat` on a nonexistent output path. -/
inductive RunError where
  | synthesisFailure : RunError
  | statFailure : RunError
deriving DecidableEq, Repr

/-- Mutable state of `main`'s loop: the output directory, the `durations`
dict, the running `total_dur`, plus a ghost trace of the file-write effects
in the order they were issued (not a variable of the script; it records
observable I/O for the theorems below). -/
structure St where
  fs : Fs
  durations : List (String × Int)
  total_dur : ℚ
  writes : List (String × FileContent)

/-- `VOICE = "am_puck"`. -/
def VOICE : String := "am_puck"

/-- The body of `main`'s `for filename, text in NARRATIONS` loop:
collect chunks from `pipeline(text, voice=VOICE, speed=1.0)`; if nonempty,
concatenate and write the clip; stat the output path unconditionally; record
the rounded milliseconds under `filename` and add the unrounded seconds to
`total_dur`. -/
def processEntry (synth : Synth) (st : St) (e : String × String) :
    Except RunError St :=
  match synth e.2 VOICE 1 with
  | .error _ => .error .synthesisFailure
  | .ok chunks =>
    let st1 :=
      if chunks.isEmpty then st
      else
        let full := chunks.flatten
        { st with
            fs := st.fs.set e.1 (FileContent.wav full)
            writes := st.writes ++ [(e.1, FileContent.wav full)] }
    match st1.fs e.1 with
    | none => .error .statFailure
    | some file =>
      let dur : ℚ := (file.size : ℚ) / (24000 * 2)
      let durMs := pyRound (dur * 1000)
      .ok { st1 with
              durations := dictSet st1.durations e.1 durMs
              total_dur := st1.total_dur + dur }

/-- The whole loop.  An uncaught exception aborts it, leaving the state as it
was at the start of the failing iteration (the failing iteration itself has
performed no write: both failure points precede any write of that entry). -/
def runEntries (synth : Synth) : St → List (String × String) →
    St × Option RunError
  | st, [] => (st, none)
  | st, e :: rest =>
    match processEntry synth st e with
    | .ok st' => runEntries synth st' rest
    | .error err => (st, some err)

/-- `main` over an arbitrary narration table and initial output directory:
run the loop; on completion serialize `durations` to `durations.json` once.
The second component is `none` exactly when the process exits 0; `some err`
models the uncaught exception terminating it with a non-zero status. -/
def runMain (synth : Synth) (fs0 : Fs) (table : List (String × String)) :
    St × Option RunError :=
  match runEntries synth { fs := fs0, durations := [], total_dur := 0, writes := [] } table with
  | (st, some err) => (st, some err)
  | (st, none) =>
    let content := FileContent.jsonDump st.durations
    ({ st with
         fs := st.fs.set "durations.json" content
         writes := st.writes ++ [("durations.json", content)] }, none)

/-- `NARRATIONS`: the hardcoded narration table of the script. -/
def NARRATIONS : List (String × String) :=
  [ ("01.wav",
     "Let\x27s take a quick look at Nebee, " ++
     "a multi-user environment management platform built for pixie."),
    ("02.wav",
     "Once you log in, you land on the workspaces dashboard. " ++
     "This is where you can see all your environments at a glance, " ++
     "create new ones, or jump into an existing workspace."),
    ("03.wav",
     "Clicking into a workspace gives you the full picture. " ++
     "You can see which packages are installed, " ++
     "the platforms it supports, and the current configuration."),
    ("04.wav",
     "Adding a new package is simple. " ++
     "Just open the install dialog, type the package name, " ++
     "and hit install. Nebee handles the rest in the background."),
    ("05.wav",
     "You can also edit the pixie dot toml configuration " ++
     "directly in the browser. " ++
     "Great for quick tweaks without opening a terminal."),
    ("06.wav",
     "Every change is automatically versioned. " ++
     "Each version stores the full pixie dot toml and lock file, " ++
     "so you can always roll back to any previous state."),
    ("07.wav",
     "When you\x27re ready, just hit publish. " ++
     "Nebee pushes your environment to an O.C.I. registry " ++
     "so your team can pull it from anywhere."),
    ("08.wav",
     "Sharing a workspace is easy. " ++
     "Just click share, pick a team member, " ++
     "set their permission level, and they\x27re in."),
    ("09.wav",
     "All the heavy lifting happens through background jobs. " ++
     "You get full real-time logs for every operation, " ++
     "so you always know exactly what\x27s going on."),
    ("10.wav",
     "The registries page gives you a clear view " ++
     "of all connected O.C.I. registries " ++
     "and everything that\x27s been published to them."),
    ("11.wav",
     "You can also browse existing registries, " ++
     "explore what\x27s available, and import any environment with just a few clicks."),
    ("12.wav",
     "Over in the admin panel, " ++
     "you get a bird\x27s-eye view of the entire platform."),
    ("13.wav",
     "User management is built right in. " ++
     "You can create accounts, assign roles, " ++
     "and control exactly who has access to what."),
    ("14.wav",
     "Managing registries is straightforward too. " ++
     "Add multiple O.C.I. registries and configure credentials, all from one place."),
    ("15.wav",
     "And finally, everything is tracked in the audit log. " ++
     "Every action, every change, fully accounted for."),
    ("16.wav",
     "That\x27s Nebee. Give it a try, and let us know what you think!") ]

-- Stub synthesizers used in concrete scenarios.

/-- A stub synthesizer yielding zero chunks for every text. -/
def synthEmpty : Synth := fun _ _ _ => .ok []

/-- A stub synthesizer yielding one chunk of 24,000 samples (one second of
audio at 24 kHz) for every text. -/
def synthOneSec : Synth := fun _ _ _ => .ok [List.replicate 24000 0]

/-- A small stub synthesizer: two chunks of two and one samples. -/
def synthSmall : Synth := fun _ _ _ => .ok [[0, 1], [2]]

/-- An initial directory holding one stale 480-byte file at `a.wav`. -/
def staleFs : Fs := fun k => if k = "a.wav" then some (FileContent.bytes 480) else none

example : pyRound (5 / 2) = 2 := by with_unfolding_all decide
example : pyRound (7 / 2) = 4 := by with_unfolding_all decide
example : pyRound (48044 / 48 : ℚ) = 1001 := by with_unfolding_all decide
example : formatFixed1 (48044 / 48000 : ℚ) = "1.0" := by with_unfolding_all decide

-- Basic lemmas about the filesystem and dict models.

theorem Fs.set_same (fs : Fs) (k : String) (v : FileContent) : fs.set k v k = some v := by
  simp [Fs.set]

theorem Fs.set_other (fs : Fs) (k q : String) (v : FileContent) (h : q ≠ k) :
    fs.set k v q = fs q := by
  simp [Fs.set, h]

theorem Fs.set_self (fs : Fs) (k : String) (v : FileContent) (h : fs k = some v) :
    fs.set k v = fs := by
  funext q
  by_cases hq : q = k
  · subst hq; rw [Fs.set_same, h]
  · exact Fs.set_other fs k q v hq

/-- The size in bytes of the clip file written for a chunk list: the fixed
WAV header plus two bytes per sample. -/
def clipBytes (chunks : List Chunk) : Nat :=
  wavHeaderSize + 2 * chunks.flatten.length

/-- The unrounded duration in seconds the script derives for a clip written
from `chunks`: stat size over `24000 * 2` bytes per second. -/
def clipSecs (chunks : List Chunk) : ℚ :=
  (clipBytes chunks : ℚ) / (24000 * 2)

-- Stepping lemmas: the four possible outcomes of one loop iteration.

/-- Iteration outcome when the synthesizer raises: the failure propagates. -/
theorem processEntry_synthFail (synth : Synth) (st : St) (fn t : String) (err : Unit)
    (hs : synth t VOICE 1 = .error err) :
    processEntry synth st (fn, t) = .error RunError.synthesisFailure := by
  unfold processEntry
  rw [hs]

/-- Iteration outcome for at least one chunk: the concatenated clip is
written at the entry's filename, the stat sees the just-written file, and its
size-derived duration is recorded. -/
theorem processEntry_write (synth : Synth) (st : St) (fn t : String) (chunks : List Chunk)
    (hs : synth t VOICE 1 = .ok chunks) (hne : chunks ≠ []) :
    processEntry synth st (fn, t) = .ok
      { fs := st.fs.set fn (FileContent.wav chunks.flatten)
        durations := dictSet st.durations fn (pyRound (clipSecs chunks * 1000))
        total_dur := st.total_dur + clipSecs chunks
        writes := st.writes ++ [(fn, FileContent.wav chunks.flatten)] } := by
  unfold processEntry
  rw [hs]
  simp only [List.isEmpty_iff, hne, if_false, Fs.set_same]
  rfl

/-- Iteration outcome for zero chunks when a file already exists at the
output path: nothing is written, but the stat still succeeds and a duration
derived from the stale file's size is recorded under the entry's filename. -/
theorem processEntry_emptyStale (synth : Synth) (st : St) (fn t : String)
    (file : FileContent)
    (hs : synth t VOICE 1 = .ok []) (hf : st.fs fn = some file) :
    processEntry synth st (fn, t) = .ok
      { fs := st.fs
        durations := dictSet st.durations fn
          (pyRound ((file.size : ℚ) / (24000 * 2) * 1000))
        total_dur := st.total_dur + (file.size : ℚ) / (24000 * 2)
        writes := st.writes } := by
  unfold processEntry
  rw [hs]
  simp only [List.isEmpty_nil, if_pos]
  rw [hf]

/-- Iteration outcome for zero chunks and no file at the output path:
`Path.stat` raises `FileNotFoundError`. -/
theorem processEntry_emptyMissing (synth : Synth) (st : St) (fn t : String)
    (hs : synth t VOICE 1 = .ok []) (hf : st.fs fn = none) :
    processEntry synth st (fn, t) = .error RunError.statFailure := by
  unfold processEntry
  rw [hs]
  simp only [List.isEmpty_nil, if_pos]
  rw [hf]

-- Unfolding the loop one iteration at a time.

theorem runEntries_nil (synth : Synth) (st : St) : runEntries synth st [] = (st, none) := rfl

theorem runEntries_cons_ok (synth : Synth) (st st' : St) (e : String × String)
    (rest : List (String × String)) (h : processEntry synth st e = .ok st') :
    runEntries synth st (e :: rest) = runEntries synth st' rest := by
  conv_lhs => unfold runEntries
  rw [h]

theorem runEntries_cons_err (synth : Synth) (st : St) (e : String × String)
    (rest : List (String × String)) (err : RunError)
    (h : processEntry synth st e = .error err) :
    runEntries synth st (e :: rest) = (st, some err) := by
  conv_lhs => unfold runEntries
  rw [h]

/-- The initial loop state over an initial output directory. -/
def initSt (fs0 : Fs) : St := { fs := fs0, durations := [], total_dur := 0, writes := [] }

theorem runMain_ok (synth : Synth) (fs0 : Fs) (table : List (String × String)) (st : St)
    (h : runEntries synth (initSt fs0) table = (st, none)) :
    runMain synth fs0 table =
      ({ st with
           fs := st.fs.set "durations.json" (FileContent.jsonDump st.durations)
           writes := st.writes ++
             [("durations.json", FileContent.jsonDump st.durations)] }, none) := by
  unfold runMain
  rw [show ({ fs := fs0, durations := [], total_dur := 0, writes := [] } : St) = initSt fs0 from rfl, h]

theorem runMain_err (synth : Synth) (fs0 : Fs) (table : List (String × String)) (st : St)
    (err : RunError) (h : runEntries synth (initSt fs0) table = (st, some err)) :
    runMain synth fs0 table = (st, some err) := by
  unfold runMain
  rw [show ({ fs := fs0, durations := [], total_dur := 0, writes := [] } : St) = initSt fs0 from rfl, h]

/-- Inversion: a successful iteration is either a write of a nonempty clip or
a silent skip that statted a pre-existing file. -/
theorem processEntry_ok_inv (synth : Synth) (st st' : St) (fn t : String)
    (h : processEntry synth st (fn, t) = .ok st') :
    (∃ chunks, synth t VOICE 1 = .ok chunks ∧ chunks ≠ [] ∧
      st' = { fs := st.fs.set fn (FileContent.wav chunks.flatten)
              durations := dictSet st.durations fn (pyRound (clipSecs chunks * 1000))
              total_dur := st.total_dur + clipSecs chunks
              writes := st.writes ++ [(fn, FileContent.wav chunks.flatten)] }) ∨
    (synth t VOICE 1 = .ok [] ∧ ∃ file, st.fs fn = some file ∧
      st' = { fs := st.fs
              durations := dictSet st.durations fn
                (pyRound ((file.size : ℚ) / (24000 * 2) * 1000))
              total_dur := st.total_dur + (file.size : ℚ) / (24000 * 2)
              writes := st.writes }) := by
  cases hsy : synth t VOICE 1 with
  | error err =>
    rw [processEntry_synthFail synth st fn t err hsy] at h
    exact absurd h (by simp)
  | ok chunks =>
    by_cases hne : chunks = []
    · subst hne
      cases hf : st.fs fn with
      | none =>
        rw [processEntry_emptyMissing synth st fn t hsy hf] at h
        exact absurd h (by simp)
      | some file =>
        rw [processEntry_emptyStale synth st fn t file hsy hf] at h
        right
        exact ⟨rfl, file, rfl, ((Except.ok.injEq _ _).mp h).symm⟩
    · rw [processEntry_write synth st fn t chunks hsy hne] at h
      left
      exact ⟨chunks, rfl, hne, ((Except.ok.injEq _ _).mp h).symm⟩

/-- A successful iteration leaves every other path of the directory alone. -/
theorem processEntry_fs_frame (synth : Synth) (st st' : St) (e : String × String)
    (h : processEntry synth st e = .ok st') (q : String) (hq : q ≠ e.1) :
    st'.fs q = st.fs q := by
  obtain ⟨fn, t⟩ := e
  rcases processEntry_ok_inv synth st st' fn t h with
    ⟨chunks, _, _, rfl⟩ | ⟨_, file, _, rfl⟩
  · exact Fs.set_other st.fs fn q _ hq
  · rfl

/-- The whole loop leaves every path outside the table's filenames alone. -/
theorem runEntries_fs_frame (synth : Synth) :
    ∀ (table : List (String × String)) (st : St) (res : St × Option RunError),
    runEntries synth st table = res →
    ∀ q, q ∉ table.map Prod.fst → res.1.fs q = st.fs q := by
  intro table
  induction table with
  | nil => intro st res h q _; rw [← h]; rfl
  | cons e rest ih =>
    intro st res h q hq
    simp only [List.map_cons, List.mem_cons, not_or] at hq
    cases hpe : processEntry synth st e with
    | ok st' =>
      rw [runEntries_cons_ok synth st st' e rest hpe] at h
      rw [ih st' res h q hq.2]
      exact processEntry_fs_frame synth st st' e hpe q hq.1
    | error err =>
      rw [runEntries_cons_err synth st e rest err hpe] at h
      rw [← h]

-- Dict lemmas.

theorem dictSet_keys_of_not_mem (d : List (String × Int)) (k : String) (v : Int)
    (h : k ∉ d.map Prod.fst) :
    (dictSet d k v).map Prod.fst = d.map Prod.fst ++ [k] := by
  have hany : ¬ d.any (fun p => p.1 = k) = true := by
    simp only [List.any_eq_true, decide_eq_true_eq]
    rintro ⟨p, hp, hpk⟩
    exact h (List.mem_map.mpr ⟨p, hp, hpk⟩)
  unfold dictSet
  rw [if_neg hany, List.map_append]
  rfl

theorem dictGet_dictSet_self (d : List (String × Int)) (k : String) (v : Int) :
    dictGet (dictSet d k v) k = some v := by
  induction d with
  | nil => simp [dictGet, dictSet]
  | cons p d ih =>
    by_cases hp : p.1 = k
    · simp [dictGet, dictSet, List.any_cons, hp, List.find?]
    · by_cases ha : d.any (fun q => q.1 = k) = true
      · have hset : dictSet (p :: d) k v = p :: (dictSet d k v) := by
          simp [dictSet, List.any_cons, hp, ha]
        rw [hset]
        simpa [dictGet, List.find?, hp] using ih
      · have h2 : d.any (fun q => q.1 = k) = false := Bool.eq_false_iff.mpr ha
        have h1 : (p :: d).any (fun q => q.1 = k) = false := by
          simp [List.any_cons, hp, h2]
        have hset : dictSet (p :: d) k v = p :: (dictSet d k v) := by
          simp [dictSet, h1, h2, List.cons_append]
        rw [hset]
        simpa [dictGet, List.find?, hp] using ih

-- The loop's durations keys: one key per processed entry, in table order.

theorem runEntries_durations_keys (synth : Synth) :
    ∀ (table : List (String × String)) (st res : St),
    runEntries synth st table = (res, none) →
    (st.durations.map Prod.fst ++ table.map Prod.fst).Nodup →
    res.durations.map Prod.fst = st.durations.map Prod.fst ++ table.map Prod.fst := by
  intro table
  induction table with
  | nil =>
    intro st res h _
    rw [runEntries_nil] at h
    obtain ⟨rfl, -⟩ := Prod.mk.injEq .. ▸ h
    simp
  | cons e rest ih =>
    intro st res h hnd
    obtain ⟨fn, t⟩ := e
    cases hpe : processEntry synth st (fn, t) with
    | error err =>
      rw [runEntries_cons_err synth st (fn, t) rest err hpe] at h
      exact absurd (congrArg Prod.snd h) (by simp)
    | ok st' =>
      rw [runEntries_cons_ok synth st st' (fn, t) rest hpe] at h
      have hfn_not : fn ∉ st.durations.map Prod.fst := by
        intro hmem
        have hdisj := (List.nodup_append.mp hnd).2.2
        exact hdisj hmem (by simp)
      obtain ⟨v, hd⟩ : ∃ v, st'.durations = dictSet st.durations fn v := by
        rcases processEntry_ok_inv synth st st' fn t hpe with
          ⟨c, _, _, rfl⟩ | ⟨_, f, _, rfl⟩ <;> exact ⟨_, rfl⟩
      have hkeys : st'.durations.map Prod.fst = st.durations.map Prod.fst ++ [fn] := by
        rw [hd]; exact dictSet_keys_of_not_mem _ _ _ hfn_not
      have hnd' : (st'.durations.map Prod.fst ++ rest.map Prod.fst).Nodup := by
        rw [hkeys]
        simpa [List.append_assoc] using hnd
      rw [ih st' res h hnd', hkeys]
      simp [List.append_assoc]

-- Every write the loop issues is a WAV clip write.

theorem runEntries_writes_wav (synth : Synth) :
    ∀ (table : List (String × String)) (st : St) (res : St × Option RunError),
    runEntries synth st table = res →
    ∃ ext, res.1.writes = st.writes ++ ext ∧
      ∀ p ∈ ext, ∃ s, p.2 = FileContent.wav s := by
  intro table
  induction table with
  | nil =>
    intro st res h
    rw [← h, runEntries_nil]
    exact ⟨[], by simp, by simp⟩
  | cons e rest ih =>
    intro st res h
    obtain ⟨fn, t⟩ := e
    cases hpe : processEntry synth st (fn, t) with
    | error err =>
      rw [runEntries_cons_err synth st (fn, t) rest err hpe] at h
      rw [← h]
      exact ⟨[], by simp, by simp⟩
    | ok st' =>
      rw [runEntries_cons_ok synth st st' (fn, t) rest hpe] at h
      obtain ⟨ext, hext, hwav⟩ := ih st' res h
      rcases processEntry_ok_inv synth st st' fn t hpe with
        ⟨c, _, _, rfl⟩ | ⟨_, f, _, rfl⟩
      · refine ⟨(fn, FileContent.wav c.flatten) :: ext, ?_, ?_⟩
        · simpa [List.append_assoc] using hext
        · intro p hp
          rcases List.mem_cons.mp hp with rfl | hp'
          · exact ⟨c.flatten, rfl⟩
          · exact hwav p hp'
      · exact ⟨ext, hext, hwav⟩

/-- The unrounded seconds value the loop adds for an entry whose synthesis
yields a nonempty chunk list (the written clip's stat size over 48000). -/
def entryDurSecs (synth : Synth) (e : String × String) : ℚ :=
  match synth e.2 VOICE 1 with
  | .ok chunks => clipSecs chunks
  | .error _ => 0

theorem runEntries_total (synth : Synth) :
    ∀ (table : List (String × String)) (st res : St),
    runEntries synth st table = (res, none) →
    (∀ e ∈ table, ∃ chunks, synth e.2 VOICE 1 = .ok chunks ∧ chunks ≠ []) →
    res.total_dur = st.total_dur + (table.map (entryDurSecs synth)).sum := by
  intro table
  induction table with
  | nil =>
    intro st res h _
    rw [runEntries_nil] at h
    obtain ⟨rfl, -⟩ := Prod.mk.injEq .. ▸ h
    simp
  | cons e rest ih =>
    intro st res h hall
    obtain ⟨fn, t⟩ := e
    obtain ⟨chunks, hsy, hne⟩ := hall (fn, t) (by simp)
    have hpe := processEntry_write synth st fn t chunks hsy hne
    rw [runEntries_cons_ok synth st _ (fn, t) rest hpe] at h
    have hrest : ∀ e ∈ rest, ∃ chunks, synth e.2 VOICE 1 = .ok chunks ∧ chunks ≠ [] := by
      intro e he; exact hall e (by simp [he])
    rw [ih _ res h hrest]
    have hdur : entryDurSecs synth (fn, t) = clipSecs chunks := by
      unfold entryDurSecs
      rw [hsy]
    simp only [List.map_cons, List.sum_cons, hdur]
    ring

-- What each table filename holds in the directory after a successful run.

theorem runEntries_fs_final (synth : Synth) :
    ∀ (table : List (String × String)) (st res : St),
    runEntries synth st table = (res, none) →
    (table.map Prod.fst).Nodup →
    ∀ e ∈ table, ∀ chunks, synth e.2 VOICE 1 = .ok chunks →
      (chunks ≠ [] → res.fs e.1 = some (FileContent.wav chunks.flatten)) ∧
      (chunks = [] → res.fs e.1 = st.fs e.1) := by
  intro table
  induction table with
  | nil => intro st res _ _ e he; exact absurd he (List.not_mem_nil e)
  | cons hd rest ih =>
    intro st res h hnd e he chunks hsy
    obtain ⟨fn, t⟩ := hd
    have hnd_rest : (rest.map Prod.fst).Nodup := (List.nodup_cons.mp hnd).2
    have hfn_not : fn ∉ rest.map Prod.fst := (List.nodup_cons.mp hnd).1
    cases hpe : processEntry synth st (fn, t) with
    | error err =>
      rw [runEntries_cons_err synth st (fn, t) rest err hpe] at h
      exact absurd (congrArg Prod.snd h) (by simp)
    | ok st' =>
      rw [runEntries_cons_ok synth st st' (fn, t) rest hpe] at h
      rcases List.mem_cons.mp he with rfl | he'
      · -- the head entry itself
        have hframe : res.fs fn = st'.fs fn :=
          runEntries_fs_frame synth rest st' (res, none) h fn hfn_not
        rcases processEntry_ok_inv synth st st' fn t hpe with
          ⟨c, hc, hcne, rfl⟩ | ⟨hc, f, hf, rfl⟩
        · have : chunks = c := by
            rw [hsy] at hc; exact (Except.ok.injEq _ _).mp (hc.symm) |>.symm
          subst this
          constructor
          · intro _
            rw [hframe]
            exact Fs.set_same st.fs fn _
          · intro hnil; exact absurd hnil hcne
        · have : chunks = [] := by
            rw [hsy] at hc; exact (Except.ok.injEq _ _).mp (hc.symm) |>.symm
          subst this
          constructor
          · intro hne; exact absurd rfl hne
          · intro _; rw [hframe]
      · -- an entry of the rest
        have hres := ih st' res h hnd_rest e he' chunks hsy
        have hne_fn : e.1 ≠ fn := by
          intro hEq
          exact hfn_not (hEq ▸ List.mem_map.mpr ⟨e, he', rfl⟩)
        have hfs' : st'.fs e.1 = st.fs e.1 :=
          processEntry_fs_frame synth st st' (fn, t) hpe e.1 hne_fn
        exact ⟨hres.1, fun hnil => (hres.2 hnil).trans hfs'⟩

/-- Re-running the loop over a directory that already holds each table
filename's final contents reproduces the same durations and totals and
rewrites every clip in place with identical bytes. -/
theorem runEntries_rerun (synth : Synth) :
    ∀ (table : List (String × String)) (s r u : St),
    runEntries synth s table = (r, none) →
    (table.map Prod.fst).Nodup →
    (∀ e ∈ table, u.fs e.1 = r.fs e.1) →
    u.durations = s.durations → u.total_dur = s.total_dur →
    ∃ r', runEntries synth u table = (r', none) ∧
      r'.fs = u.fs ∧ r'.durations = r.durations ∧ r'.total_dur = r.total_dur := by
  intro table
  induction table with
  | nil =>
    intro s r u h _ _ hdur htot
    rw [runEntries_nil] at h
    obtain ⟨rfl, -⟩ := Prod.mk.injEq .. ▸ h
    exact ⟨u, runEntries_nil synth u, rfl, hdur, htot⟩
  | cons hd rest ih =>
    intro s r u h hnd hagree hdur htot
    obtain ⟨fn, t⟩ := hd
    have hnd_rest : (rest.map Prod.fst).Nodup := (List.nodup_cons.mp hnd).2
    have hfn_not : fn ∉ rest.map Prod.fst := (List.nodup_cons.mp hnd).1
    cases hpe : processEntry synth s (fn, t) with
    | error err =>
      rw [runEntries_cons_err synth s (fn, t) rest err hpe] at h
      exact absurd (congrArg Prod.snd h) (by simp)
    | ok s1 =>
      rw [runEntries_cons_ok synth s s1 (fn, t) rest hpe] at h
      have hframe : r.fs fn = s1.fs fn :=
        runEntries_fs_frame synth rest s1 (r, none) h fn hfn_not
      rcases processEntry_ok_inv synth s s1 fn t hpe with
        ⟨c, hc, hcne, hs1⟩ | ⟨hc, f, hf, hs1⟩
      · -- head wrote a clip; the rerun rewrites the identical clip in place
        have hufn : u.fs fn = some (FileContent.wav c.flatten) := by
          rw [hagree (fn, t) (by simp), hframe, hs1]
          exact Fs.set_same s.fs fn _
        have hpe2 := processEntry_write synth u fn t c hc hcne
        set u1 : St :=
          { fs := u.fs.set fn (FileContent.wav c.flatten)
            durations := dictSet u.durations fn (pyRound (clipSecs c * 1000))
            total_dur := u.total_dur + clipSecs c
            writes := u.writes ++ [(fn, FileContent.wav c.flatten)] } with hu1
        have hu1fs : u1.fs = u.fs := Fs.set_self u.fs fn _ hufn
        have hagree' : ∀ e ∈ rest, u1.fs e.1 = r.fs e.1 := by
          intro e he
          rw [hu1fs]
          exact hagree e (by simp [he])
        have hdur' : u1.durations = s1.durations := by
          rw [hu1, hs1]; simpa using congrArg (fun d => dictSet d fn (pyRound (clipSecs c * 1000))) hdur
        have htot' : u1.total_dur = s1.total_dur := by
          rw [hu1, hs1]; simpa using congrArg (fun x => x + clipSecs c) htot
        obtain ⟨r', hrun', hrfs, hrdur, hrtot⟩ := ih s1 r u1 h hnd_rest hagree' hdur' htot'
        refine ⟨r', ?_, by rw [hrfs, hu1fs], hrdur, hrtot⟩
        rw [runEntries_cons_ok synth u u1 (fn, t) rest hpe2]
        exact hrun'
      · -- head skipped; the rerun stats the same untouched file
        have hufn : u.fs fn = some f := by
          rw [hagree (fn, t) (by simp), hframe, hs1]
          exact hf
        have hpe2 := processEntry_emptyStale synth u fn t f hc hufn
        set u1 : St :=
          { fs := u.fs
            durations := dictSet u.durations fn
              (pyRound ((f.size : ℚ) / (24000 * 2) * 1000))
            total_dur := u.total_dur + (f.size : ℚ) / (24000 * 2)
            writes := u.writes } with hu1
        have hagree' : ∀ e ∈ rest, u1.fs e.1 = r.fs e.1 := by
          intro e he
          exact hagree e (by simp [he])
        have hdur' : u1.durations = s1.durations := by
          rw [hu1, hs1]
          simpa using congrArg
            (fun d => dictSet d fn (pyRound ((f.size : ℚ) / (24000 * 2) * 1000))) hdur
        have htot' : u1.total_dur = s1.total_dur := by
          rw [hu1, hs1]; simpa using congrArg (fun x => x + (f.size : ℚ) / (24000 * 2)) htot
        obtain ⟨r', hrun', hrfs, hrdur, hrtot⟩ := ih s1 r u1 h hnd_rest hagree' hdur' htot'
        refine ⟨r', ?_, hrfs, hrdur, hrtot⟩
        rw [runEntries_cons_ok synth u u1 (fn, t) rest hpe2]
        exact hrun'

-- Inversion of a successful `runMain`.

theorem runMain_ok_inv (synth : Synth) (fs0 : Fs) (table : List (String × String))
    (st : St) (h : runMain synth fs0 table = (st, none)) :
    ∃ st0, runEntries synth (initSt fs0) table = (st0, none) ∧
      st.durations = st0.durations ∧ st.total_dur = st0.total_dur ∧
      st.fs = st0.fs.set "durations.json" (FileContent.jsonDump st0.durations) ∧
      st.writes = st0.writes ++
        [("durations.json", FileContent.jsonDump st0.durations)] := by
  cases hrun : runEntries synth (initSt fs0) table with
  | mk st0 o =>
    cases o with
    | some err =>
      rw [runMain_err synth fs0 table st0 err hrun] at h
      exact absurd (congrArg Prod.snd h) (by simp)
    | none =>
      rw [runMain_ok synth fs0 table st0 hrun] at h
      obtain ⟨h1, -⟩ := Prod.mk.injEq .. ▸ h
      subst h1
      exact ⟨st0, rfl, rfl, rfl, rfl, rfl⟩

-- Concrete evaluations used in the scenario theorems and witnesses.
-- The 24,000-sample clip of the specification's concrete scenario is too
-- large for brute-force kernel evaluation, so these runs are computed
-- through the stepping lemmas, with only small rational arithmetic decided.

theorem clipBytes_single (c : Chunk) : clipBytes [c] = 44 + 2 * c.length := by
  unfold clipBytes wavHeaderSize
  rw [List.flatten_cons, List.flatten_nil, List.append_nil]

theorem clipSecs_oneSec : clipSecs [List.replicate 24000 (0 : Int)] = 48044 / 48000 := by
  unfold clipSecs
  rw [clipBytes_single, List.length_replicate]
  norm_num

theorem pyRound_oneSec : pyRound (48044 / 48000 * 1000) = 1001 := by
  with_unfolding_all decide

theorem format_oneSec : formatFixed1 (0 + 48044 / 48000) = "1.0" := by
  with_unfolding_all decide

theorem runEntries_oneSec :
    runEntries synthOneSec (initSt Fs.empty) [("a.wav", "Hi")] =
      ({ fs := Fs.empty.set "a.wav" (FileContent.wav (List.replicate 24000 0))
         durations := [("a.wav", 1001)]
         total_dur := 0 + 48044 / 48000
         writes := [("a.wav", FileContent.wav (List.replicate 24000 0))] }, none) := by
  have hflat : ([List.replicate 24000 (0 : Int)] : List Chunk).flatten =
      List.replicate 24000 0 := by
    rw [List.flatten_cons, List.flatten_nil, List.append_nil]
  have hpe := processEntry_write synthOneSec (initSt Fs.empty) "a.wav" "Hi"
    [List.replicate 24000 0] rfl (List.cons_ne_nil _ _)
  rw [hflat, clipSecs_oneSec, pyRound_oneSec] at hpe
  rw [runEntries_cons_ok synthOneSec (initSt Fs.empty) _ ("a.wav", "Hi") [] hpe,
    runEntries_nil]
  rfl

theorem runMain_oneSec_eq :
    runMain synthOneSec Fs.empty [("a.wav", "Hi")] =
      ({ fs := (Fs.empty.set "a.wav" (FileContent.wav (List.replicate 24000 0))).set
                 "durations.json" (FileContent.jsonDump [("a.wav", 1001)])
         durations := [("a.wav", 1001)]
         total_dur := 0 + 48044 / 48000
         writes := [("a.wav", FileContent.wav (List.replicate 24000 0)),
                    ("durations.json", FileContent.jsonDump [("a.wav", 1001)])] }, none) := by
  rw [runMain_ok synthOneSec Fs.empty [("a.wav", "Hi")] _ runEntries_oneSec]
  rfl

theorem clipSecs_small : clipSecs [[0, 1], [2]] = 50 / 48000 := by
  have h1 : clipBytes [[0, 1], [2]] = 50 := rfl
  unfold clipSecs
  rw [h1]
  norm_num

theorem pyRound_small : pyRound (50 / 48000 * 1000) = 1 := by
  with_unfolding_all decide

/-- The loop state after the single iteration of the small stub scenario. -/
def smallSt : St :=
  { fs := Fs.empty.set "a.wav" (FileContent.wav [0, 1, 2])
    durations := [("a.wav", 1)]
    total_dur := 0 + 50 / 48000
    writes := [("a.wav", FileContent.wav [0, 1, 2])] }

theorem processEntry_small_eq :
    processEntry synthSmall (initSt Fs.empty) ("a.wav", "Hi") = .ok smallSt := by
  have hpe := processEntry_write synthSmall (initSt Fs.empty) "a.wav" "Hi"
    [[0, 1], [2]] rfl (List.cons_ne_nil _ _)
  rw [clipSecs_small, pyRound_small] at hpe
  rw [hpe]
  rfl

theorem runMain_small_eq :
    runMain synthSmall Fs.empty [("a.wav", "Hi")] =
      ({ fs := (Fs.empty.set "a.wav" (FileContent.wav [0, 1, 2])).set
                 "durations.json" (FileContent.jsonDump [("a.wav", 1)])
         durations := [("a.wav", 1)]
         total_dur := 0 + 50 / 48000
         writes := [("a.wav", FileContent.wav [0, 1, 2]),
                    ("durations.json", FileContent.jsonDump [("a.wav", 1)])] }, none) := by
  have hrun : runEntries synthSmall (initSt Fs.empty) [("a.wav", "Hi")] = (smallSt, none) := by
    rw [runEntries_cons_ok synthSmall (initSt Fs.empty) smallSt ("a.wav", "Hi") []
      processEntry_small_eq, runEntries_nil]
  rw [runMain_ok synthSmall Fs.empty [("a.wav", "Hi")] smallSt hrun]
  rfl

theorem runMain_emptyMissing_eq :
    runMain synthEmpty Fs.empty [("a.wav", "Hi")] =
      (initSt Fs.empty, some RunError.statFailure) := by
  have hpe := processEntry_emptyMissing synthEmpty (initSt Fs.empty) "a.wav" "Hi" rfl rfl
  have hrun := runEntries_cons_err synthEmpty (initSt Fs.empty) ("a.wav", "Hi") []
    RunError.statFailure hpe
  exact runMain_err synthEmpty Fs.empty [("a.wav", "Hi")] (initSt Fs.empty)
    RunError.statFailure hrun

/-- Stat size of a written clip, generalized (44-byte header + 2 bytes per
sample). -/
theorem wav_size (l : List Int) : (FileContent.wav l).size = 44 + 2 * l.length := rfl

/-- Keys of the record after a completed run are exactly the table's
filenames, in order. -/
theorem runMain_durations_keys (synth : Synth) (fs0 : Fs)
    (table : List (String × String)) (st : St)
    (h : runMain synth fs0 table = (st, none))
    (hnd : (table.map Prod.fst).Nodup) :
    st.durations.map Prod.fst = table.map Prod.fst := by
  obtain ⟨st0, hrun, hdur, -, -, -⟩ := runMain_ok_inv synth fs0 table st h
  rw [hdur]
  have hkeys := runEntries_durations_keys synth table (initSt fs0) st0 hrun
    (by simpa [initSt] using hnd)
  simpa [initSt] using hkeys

-- ======================================================================
-- Claim theorems
-- ======================================================================

/-- C1, counterexample: with a stub synthesizer yielding zero chunks for the
single entry and an initially empty output directory, the run raises
(`Path.stat` on the missing output file) instead of continuing, contradicting
the claim's "does not raise, and continues". -/
theorem empty_synthesis_missing_file_raises :
    (runMain synthEmpty Fs.empty [("a.wav", "Hi")]).2 = some RunError.statFailure := by
  rw [runMain_emptyMissing_eq]

/-- C1 (amended): for an entry whose synthesis yields zero chunks, no file is
written for it; if a file already exists at the entry's output path the loop
continues past the entry (recording a duration for it from that file),
otherwise the unconditional stat raises and the run aborts. -/
theorem empty_synthesis_no_write_stale_or_abort (synth : Synth) (st : St)
    (fn t : String) (rest : List (String × String))
    (hs : synth t VOICE 1 = .ok []) :
    (∀ file, st.fs fn = some file →
      ∃ st', processEntry synth st (fn, t) = .ok st' ∧ st'.fs = st.fs ∧
        st'.writes = st.writes ∧
        runEntries synth st ((fn, t) :: rest) = runEntries synth st' rest) ∧
    (st.fs fn = none →
      runEntries synth st ((fn, t) :: rest) = (st, some RunError.statFailure)) := by
  constructor
  · intro file hf
    exact ⟨_, processEntry_emptyStale synth st fn t file hs hf, rfl, rfl,
      runEntries_cons_ok synth st _ (fn, t) rest
        (processEntry_emptyStale synth st fn t file hs hf)⟩
  · intro hf
    exact runEntries_cons_err synth st (fn, t) rest _
      (processEntry_emptyMissing synth st fn t hs hf)

/-- C1 witness: concrete instance of the abort branch. -/
theorem empty_synthesis_no_write_stale_or_abort_witness :
    runEntries synthEmpty (initSt Fs.empty) [("a.wav", "Hi")] =
      (initSt Fs.empty, some RunError.statFailure) :=
  (empty_synthesis_no_write_stale_or_abort synthEmpty (initSt Fs.empty)
    "a.wav" "Hi" [] rfl).2 rfl

/-- C2, counterexample: with zero chunks for the entry but a stale 480-byte
file already at its output path, the run completes (exit 0) and the written
record contains a key for the skipped entry, derived from the stale file:
the claim's "no key for any entry skipped due to empty synthesis" fails. -/
theorem stale_file_key_recorded_for_skipped_entry :
    (runMain synthEmpty staleFs [("a.wav", "Hi")]).2 = none ∧
    (runMain synthEmpty staleFs [("a.wav", "Hi")]).1.durations = [("a.wav", 10)] ∧
    (runMain synthEmpty staleFs [("a.wav", "Hi")]).1.writes =
      [("durations.json", FileContent.jsonDump [("a.wav", 10)])] := by
  refine ⟨?_, ?_, ?_⟩ <;> with_unfolding_all decide

/-- C2 (amended): after a complete run the durations mapping contains exactly
one key per narration entry — both for entries that produced a written file
and for entries skipped due to empty synthesis (which complete only when a
pre-existing file provides the stat), and no key for anything else. -/
theorem durations_one_key_per_entry (synth : Synth) (fs0 : Fs)
    (table : List (String × String)) (st : St)
    (h : runMain synth fs0 table = (st, none))
    (hnd : (table.map Prod.fst).Nodup) :
    (∀ fn ∈ table.map Prod.fst,
      (st.durations.map Prod.fst).count fn = 1) ∧
    (∀ fn, fn ∉ table.map Prod.fst →
      (st.durations.map Prod.fst).count fn = 0) := by
  rw [runMain_durations_keys synth fs0 table st h hnd]
  constructor
  · intro fn hfn
    exact List.count_eq_one_of_mem hnd hfn
  · intro fn hfn
    exact List.count_eq_zero_of_not_mem hfn

/-- C2 witness. -/
theorem durations_one_key_per_entry_witness :
    (∀ fn ∈ ([("a.wav", "Hi")] : List (String × String)).map Prod.fst,
      ((runMain synthSmall Fs.empty [("a.wav", "Hi")]).1.durations.map Prod.fst).count fn = 1) ∧
    (∀ fn, fn ∉ ([("a.wav", "Hi")] : List (String × String)).map Prod.fst →
      ((runMain synthSmall Fs.empty [("a.wav", "Hi")]).1.durations.map Prod.fst).count fn = 0) := by
  have h2 : runMain synthSmall Fs.empty [("a.wav", "Hi")] =
      ((runMain synthSmall Fs.empty [("a.wav", "Hi")]).1, none) := by
    rw [runMain_small_eq]
  exact durations_one_key_per_entry synthSmall Fs.empty [("a.wav", "Hi")] _ h2 (by decide)

/-- C3, counterexample: in the concrete one-second scenario the recorded
value is 1001 ms, not 1000 ms — the stat size includes the 44-byte WAV
header, so `round(48044 / 48000 * 1000) = 1001`. -/
theorem one_second_scenario_durations_ne_1000 :
    (runMain synthOneSec Fs.empty [("a.wav", "Hi")]).1.durations ≠ [("a.wav", 1000)] := by
  rw [runMain_oneSec_eq]
  simp

/-- C3 (amended): for the table `[("a.wav", "Hi")]` and a stub synthesizer
returning one chunk of 24,000 samples, the tool writes `a.wav` with exactly
48,000 bytes of PCM payload plus the fixed 44-byte header, the written record
equals `{"a.wav": 1001}` (the header inflates the size-derived duration by
0.92 ms), and the printed total is `"1.0s"`. -/
theorem one_second_scenario :
    (runMain synthOneSec Fs.empty [("a.wav", "Hi")]).2 = none ∧
    (runMain synthOneSec Fs.empty [("a.wav", "Hi")]).1.fs "a.wav" =
      some (FileContent.wav (List.replicate 24000 0)) ∧
    (FileContent.wav (List.replicate 24000 0)).size = 48000 + wavHeaderSize ∧
    (runMain synthOneSec Fs.empty [("a.wav", "Hi")]).1.durations = [("a.wav", 1001)] ∧
    formatFixed1 (runMain synthOneSec Fs.empty [("a.wav", "Hi")]).1.total_dur ++ "s"
      = "1.0s" := by
  rw [runMain_oneSec_eq]
  refine ⟨rfl, ?_, ?_, rfl, ?_⟩
  · show ((Fs.empty.set "a.wav" (FileContent.wav (List.replicate 24000 0))).set
        "durations.json" (FileContent.jsonDump [("a.wav", 1001)])) "a.wav" =
      some (FileContent.wav (List.replicate 24000 0))
    rw [Fs.set_other _ _ _ _ (by decide), Fs.set_same]
  · rw [wav_size, List.length_replicate]
    norm_num [wavHeaderSize]
  · rw [format_oneSec]
    rfl

/-- C4: for every entry whose clip was written, the recorded integer
millisecond value equals `round(fileSizeBytes / 48000 * 1000)`, with
`fileSizeBytes` the stat size of the written clip file. -/
theorem recorded_duration_eq_round_of_size (synth : Synth) (st st' : St)
    (fn t : String) (chunks : List Chunk)
    (hs : synth t VOICE 1 = .ok chunks) (hne : chunks ≠ [])
    (h : processEntry synth st (fn, t) = .ok st') :
    dictGet st'.durations fn =
      some (pyRound (((FileContent.wav chunks.flatten).size : ℚ) / 48000 * 1000)) := by
  rw [processEntry_write synth st fn t chunks hs hne] at h
  obtain rfl := ((Except.ok.injEq _ _).mp h).symm
  show dictGet (dictSet st.durations fn (pyRound (clipSecs chunks * 1000))) fn = _
  rw [dictGet_dictSet_self]
  have hsecs : clipSecs chunks = ((FileContent.wav chunks.flatten).size : ℚ) / 48000 := by
    unfold clipSecs clipBytes
    rw [wav_size]
    norm_num [wavHeaderSize]
  rw [hsecs]

/-- C4 witness. -/
theorem recorded_duration_eq_round_of_size_witness :
    dictGet smallSt.durations "a.wav" =
      some (pyRound (((FileContent.wav ([[0, 1], [2]] : List Chunk).flatten).size : ℚ)
        / 48000 * 1000)) :=
  recorded_duration_eq_round_of_size synthSmall (initSt Fs.empty) smallSt "a.wav" "Hi"
    [[0, 1], [2]] rfl (List.cons_ne_nil _ _) processEntry_small_eq

/-- C5: for an entry with at least one chunk, the iteration issues exactly
one file write, at the entry's filename, whose audio content is the
concatenation of the entry's chunks in production order (no resampling, no
silence insertion), and that file is what the directory then holds. -/
theorem written_clip_is_chunk_concatenation (synth : Synth) (st st' : St)
    (fn t : String) (chunks : List Chunk)
    (hs : synth t VOICE 1 = .ok chunks) (hne : chunks ≠ [])
    (h : processEntry synth st (fn, t) = .ok st') :
    st'.writes = st.writes ++ [(fn, FileContent.wav chunks.flatten)] ∧
    st'.fs fn = some (FileContent.wav chunks.flatten) := by
  rw [processEntry_write synth st fn t chunks hs hne] at h
  obtain rfl := ((Except.ok.injEq _ _).mp h).symm
  exact ⟨rfl, Fs.set_same st.fs fn _⟩

/-- C5 witness. -/
theorem written_clip_is_chunk_concatenation_witness :
    smallSt.writes = (initSt Fs.empty).writes ++
      [("a.wav", FileContent.wav ([[0, 1], [2]] : List Chunk).flatten)] ∧
    smallSt.fs "a.wav" = some (FileContent.wav ([[0, 1], [2]] : List Chunk).flatten) :=
  written_clip_is_chunk_concatenation synthSmall (initSt Fs.empty) smallSt "a.wav" "Hi"
    [[0, 1], [2]] rfl (List.cons_ne_nil _ _) processEntry_small_eq

/-- C6: after a complete run, the keys of the written record, iterated in
insertion order, are exactly the narration table's filenames in table
order. -/
theorem durations_keys_in_table_order (synth : Synth) (fs0 : Fs)
    (table : List (String × String)) (st : St)
    (h : runMain synth fs0 table = (st, none))
    (hnd : (table.map Prod.fst).Nodup) :
    st.durations.map Prod.fst = table.map Prod.fst :=
  runMain_durations_keys synth fs0 table st h hnd

/-- C6 witness. -/
theorem durations_keys_in_table_order_witness :
    (runMain synthSmall Fs.empty [("a.wav", "Hi")]).1.durations.map Prod.fst =
      ([("a.wav", "Hi")] : List (String × String)).map Prod.fst := by
  have h2 : runMain synthSmall Fs.empty [("a.wav", "Hi")] =
      ((runMain synthSmall Fs.empty [("a.wav", "Hi")]).1, none) := by
    rw [runMain_small_eq]
  exact durations_keys_in_table_order synthSmall Fs.empty [("a.wav", "Hi")] _ h2 (by decide)

/-- C7: the reported total equals the sum, in table order, of each processed
file's unrounded duration in seconds (stat size over 48000), not the sum of
the rounded millisecond values. -/
theorem total_dur_eq_sum_unrounded (synth : Synth) (fs0 : Fs)
    (table : List (String × String)) (st : St)
    (h : runMain synth fs0 table = (st, none))
    (hall : ∀ e ∈ table, ∃ chunks, synth e.2 VOICE 1 = .ok chunks ∧ chunks ≠ []) :
    st.total_dur = (table.map (entryDurSecs synth)).sum := by
  obtain ⟨st0, hrun, -, htot, -, -⟩ := runMain_ok_inv synth fs0 table st h
  rw [htot, runEntries_total synth table (initSt fs0) st0 hrun hall]
  show (0 : ℚ) + _ = _
  rw [zero_add]

/-- C7 witness. -/
theorem total_dur_eq_sum_unrounded_witness :
    (runMain synthSmall Fs.empty [("a.wav", "Hi")]).1.total_dur =
      (([("a.wav", "Hi")] : List (String × String)).map (entryDurSecs synthSmall)).sum := by
  have h2 : runMain synthSmall Fs.empty [("a.wav", "Hi")] =
      ((runMain synthSmall Fs.empty [("a.wav", "Hi")]).1, none) := by
    rw [runMain_small_eq]
  exact total_dur_eq_sum_unrounded synthSmall Fs.empty [("a.wav", "Hi")] _ h2
    (by
      intro e he
      rw [List.mem_singleton] at he
      subst he
      exact ⟨[[0, 1], [2]], rfl, List.cons_ne_nil _ _⟩)

/-- C8: re-running the tool over the directory a completed run left behind
(same table, same deterministic synthesizer) completes, overwrites each clip
in place with identical bytes (the directory is unchanged as a map), and
produces an identical durations record. -/
theorem second_run_identical (synth : Synth) (fs0 : Fs)
    (table : List (String × String)) (res1 : St)
    (h : runMain synth fs0 table = (res1, none))
    (hnd : (table.map Prod.fst).Nodup)
    (hdj : "durations.json" ∉ table.map Prod.fst) :
    ∃ res2, runMain synth res1.fs table = (res2, none) ∧
      res2.fs = res1.fs ∧ res2.durations = res1.durations := by
  obtain ⟨st0, hrun, hdur, htot, hfs, hw⟩ := runMain_ok_inv synth fs0 table res1 h
  have hagree : ∀ e ∈ table, (initSt res1.fs).fs e.1 = st0.fs e.1 := by
    intro e he
    show res1.fs e.1 = st0.fs e.1
    rw [hfs]
    refine Fs.set_other _ _ _ _ ?_
    intro hEq
    exact hdj (hEq ▸ List.mem_map.mpr ⟨e, he, rfl⟩)
  obtain ⟨r', hrun', hrfs, hrdur, hrtot⟩ :=
    runEntries_rerun synth table (initSt fs0) st0 (initSt res1.fs) hrun hnd hagree rfl rfl
  refine ⟨_, runMain_ok synth res1.fs table r' hrun', ?_, ?_⟩
  · show r'.fs.set "durations.json" (FileContent.jsonDump r'.durations) = res1.fs
    rw [hrdur]
    have hrfs' : r'.fs = res1.fs := hrfs
    rw [hrfs']
    refine Fs.set_self res1.fs "durations.json" _ ?_
    rw [hfs]
    exact Fs.set_same _ _ _
  · show r'.durations = res1.durations
    rw [hrdur, hdur]

/-- C8 witness. -/
theorem second_run_identical_witness :
    ∃ res2, runMain synthSmall
        (runMain synthSmall Fs.empty [("a.wav", "Hi")]).1.fs [("a.wav", "Hi")] =
          (res2, none) ∧
      res2.fs = (runMain synthSmall Fs.empty [("a.wav", "Hi")]).1.fs ∧
      res2.durations = (runMain synthSmall Fs.empty [("a.wav", "Hi")]).1.durations := by
  have h2 : runMain synthSmall Fs.empty [("a.wav", "Hi")] =
      ((runMain synthSmall Fs.empty [("a.wav", "Hi")]).1, none) := by
    rw [runMain_small_eq]
  exact second_run_identical synthSmall Fs.empty [("a.wav", "Hi")] _ h2
    (by decide) (by decide)

/-- C9: a synthesis or stat failure during the loop aborts the run (non-zero
exit, second component `some err`) before any write of the record file: every
write issued so far is a WAV clip write.  On completion (exit 0) the record
file is written exactly once, as the last write, after all entries. -/
theorem failure_aborts_before_record_write (synth : Synth) (fs0 : Fs)
    (table : List (String × String)) (st : St) (errOpt : Option RunError)
    (h : runMain synth fs0 table = (st, errOpt)) :
    (errOpt ≠ none → ∀ p ∈ st.writes, ∀ d, p.2 ≠ FileContent.jsonDump d) ∧
    (errOpt = none →
      ∃ pre, st.writes = pre ++
          [("durations.json", FileContent.jsonDump st.durations)] ∧
        ∀ p ∈ pre, ∀ d, p.2 ≠ FileContent.jsonDump d) := by
  cases hrun : runEntries synth (initSt fs0) table with
  | mk st0 o =>
    obtain ⟨ext, hext, hwav⟩ := runEntries_writes_wav synth table (initSt fs0) (st0, o) hrun
    have hext' : st0.writes = ext := by simpa [initSt] using hext
    cases o with
    | some err =>
      rw [runMain_err synth fs0 table st0 err hrun] at h
      obtain ⟨h1, h2⟩ := Prod.mk.injEq .. ▸ h
      subst h1
      constructor
      · intro _ p hp d
        obtain ⟨s, hs⟩ := hwav p (hext' ▸ hp)
        rw [hs]
        exact fun hcon => FileContent.noConfusion hcon
      · intro hnone
        rw [← h2] at hnone
        exact absurd hnone (by simp)
    | none =>
      rw [runMain_ok synth fs0 table st0 hrun] at h
      obtain ⟨h1, h2⟩ := Prod.mk.injEq .. ▸ h
      subst h1
      constructor
      · intro hne
        rw [← h2] at hne
        exact absurd rfl hne
      · intro _
        refine ⟨st0.writes, rfl, ?_⟩
        intro p hp d
        obtain ⟨s, hs⟩ := hwav p (hext' ▸ hp)
        rw [hs]
        exact fun hcon => FileContent.noConfusion hcon

/-- C9 witness: aborted run issued no record-file write. -/
theorem failure_aborts_before_record_write_witness :
    ((some RunError.statFailure ≠ (none : Option RunError) →
        ∀ p ∈ (initSt Fs.empty).writes, ∀ d, p.2 ≠ FileContent.jsonDump d) ∧
     (some RunError.statFailure = (none : Option RunError) →
        ∃ pre, (initSt Fs.empty).writes = pre ++
            [("durations.json", FileContent.jsonDump (initSt Fs.empty).durations)] ∧
          ∀ p ∈ pre, ∀ d, p.2 ≠ FileContent.jsonDump d)) :=
  failure_aborts_before_record_write synthEmpty Fs.empty [("a.wav", "Hi")]
    (initSt Fs.empty) (some RunError.statFailure) runMain_emptyMissing_eq

/-- C10: the duration step stats the entry's output path regardless of
whether any chunks were produced.  With zero chunks: a pre-existing file at
that path yields a recorded duration for the entry's filename computed from
that stale file's size, and a missing file makes the stat raise, aborting the
run. -/
theorem duration_step_always_stats (synth : Synth) (st : St) (fn t : String)
    (hs : synth t VOICE 1 = .ok []) :
    (∀ file, st.fs fn = some file →
      ∃ st', processEntry synth st (fn, t) = .ok st' ∧
        dictGet st'.durations fn =
          some (pyRound ((file.size : ℚ) / 48000 * 1000))) ∧
    (st.fs fn = none →
      processEntry synth st (fn, t) = .error RunError.statFailure) := by
  constructor
  · intro file hf
    refine ⟨_, processEntry_emptyStale synth st fn t file hs hf, ?_⟩
    show dictGet (dictSet st.durations fn
      (pyRound ((file.size : ℚ) / (24000 * 2) * 1000))) fn = _
    rw [dictGet_dictSet_self]
    norm_num
  · exact processEntry_emptyMissing synth st fn t hs

/-- C10 witness: the stale 480-byte file determines the recorded value. -/
theorem duration_step_always_stats_witness :
    ∃ st', processEntry synthEmpty (initSt staleFs) ("a.wav", "Hi") = .ok st' ∧
      dictGet st'.durations "a.wav" =
        some (pyRound (((FileContent.bytes 480).size : ℚ) / 48000 * 1000)) :=
  (duration_step_always_stats synthEmpty (initSt staleFs) "a.wav" "Hi" rfl).1
    (FileContent.bytes 480) rfl
